import Mathlib

/-!
Verification of the OMR (optical mark recognition) scoring pipeline of
`omr_core.py`.  The OpenCV calls are abstracted at their interface: a
detected contour is represented by the only observations the code makes
of it — its bounding rectangle `(x, y, w, h)` and the count of
foreground pixels inside it (`cv2.countNonZero` of the contour-masked
threshold image).  Arithmetic the source performs on Python floats is
carried out exactly: for the integer pixel coordinates at hand the
source's double comparisons agree with exact rational arithmetic, which
over the naturals reduces to the integer comparisons used below; the
rational formulations appear in the theorem statements and are proved
equal to the executable integer forms.  Python's stable `sorted` is
modelled by `List.insertionSort`, which is stable for the (total,
transitive) key orders used here, and a stable sort of a list under a
fixed total preorder has a unique result.
-/

namespace OMR

/-- Abstraction of an OpenCV contour: bounding box plus the masked
foreground-pixel count that the Mark Selector measures inside it.
For a contour of a nonempty connected region, `w` and `h` are ≥ 1. -/
structure Contour where
  x : Nat
  y : Nat
  w : Nat
  h : Nat
  px : Nat
deriving DecidableEq, Repr

/-- The Region Detector's shape filter (`omr_core.py` lines 33–37):
`w >= 20 and h >= 20 and ar >= 0.8 and ar <= 1.3` with
`ar = w / float(h)`.  For integer `w`, `h` in image-coordinate range
the double comparisons agree with the exact rational ones
`4/5 ≤ w/h ≤ 13/10`, i.e. with `4*h ≤ 5*w` and `10*w ≤ 13*h`. -/
def bubbleFilter (c : Contour) : Bool :=
  decide (20 ≤ c.w) && decide (20 ≤ c.h) &&
  decide (4 * c.h ≤ 5 * c.w) && decide (10 * c.w ≤ 13 * c.h)

instance : DecidableEq (Except String (List Contour)) := fun a b =>
  match a, b with
  | Except.ok x, Except.ok y => decidable_of_iff (x = y) (by simp)
  | Except.error x, Except.error y => decidable_of_iff (x = y) (by simp)
  | Except.ok _, Except.error _ => isFalse (fun h => Except.noConfusion h)
  | Except.error _, Except.ok _ => isFalse (fun h => Except.noConfusion h)

/-- Sort key of line 39: `(boundingRect[0], boundingRect[1])`,
lexicographically `x` then `y`. -/
def leXY (a b : Contour) : Prop :=
  a.x < b.x ∨ (a.x = b.x ∧ a.y ≤ b.y)

instance : DecidableRel leXY := fun a b =>
  decidable_of_iff (a.x < b.x ∨ (a.x = b.x ∧ a.y ≤ b.y)) Iff.rfl

instance : IsTotal Contour leXY :=
  ⟨fun a b => by unfold leXY; omega⟩

instance : IsTrans Contour leXY :=
  ⟨fun a b c hab hbc => by unfold leXY at hab hbc ⊢; omega⟩

/-- Python's `min` over a nonempty list of ints (the `[]` case is
never reached by the source). -/
def listMin : List Nat → Nat
  | [] => 0
  | x :: xs => xs.foldl Nat.min x

/-- Python's `max` over a nonempty list of ints. -/
def listMax : List Nat → Nat
  | [] => 0
  | x :: xs => xs.foldl Nat.max x

/-- `get_col` of lines 45–46: `min(4, int((x - min_x) / col_width))`
with `col_width = (max_x - min_x) / 5` in real arithmetic.  For
`min_x ≤ x` the truncation `int(..)` is the floor, and
`(x - min_x) / ((max_x - min_x) / 5)` floors to the integer quotient
`5 * (x - min_x) / (max_x - min_x)`. -/
def get_col (mn mx x : Nat) : Nat :=
  min 4 (5 * (x - mn) / (mx - mn))

/-- Sort key of line 48: `(get_col(x), y)`. -/
def leCol (mn mx : Nat) (a b : Contour) : Prop :=
  get_col mn mx a.x < get_col mn mx b.x ∨
    (get_col mn mx a.x = get_col mn mx b.x ∧ a.y ≤ b.y)

instance (mn mx : Nat) : DecidableRel (leCol mn mx) := fun a b =>
  decidable_of_iff
    (get_col mn mx a.x < get_col mn mx b.x ∨
      (get_col mn mx a.x = get_col mn mx b.x ∧ a.y ≤ b.y)) Iff.rfl

instance (mn mx : Nat) : IsTotal Contour (leCol mn mx) :=
  ⟨fun a b => by unfold leCol; omega⟩

instance (mn mx : Nat) : IsTrans Contour (leCol mn mx) :=
  ⟨fun a b c hab hbc => by unfold leCol at hab hbc ⊢; omega⟩

/-- `find_and_sort_bubbles` (lines 25–50), taking the detected
contours as input: apply the shape filter, sort by `(x, y)`, and — for
more than 100 candidates — re-sort by `(column band, y)`.  When every
candidate has the same `x` coordinate the source computes
`col_width = 0.0` and the first `get_col` call inside `sorted` raises
`ZeroDivisionError`; this is the `Except.error` branch. -/
def find_and_sort_bubbles (cnts : List Contour) : Except String (List Contour) :=
  let filtered := cnts.filter bubbleFilter
  let q := filtered.insertionSort leXY
  if 100 < q.length then
    let xs := q.map Contour.x
    let mn := listMin xs
    let mx := listMax xs
    if mx = mn then
      Except.error "ZeroDivisionError: float division by zero"
    else
      Except.ok (q.insertionSort (leCol mn mx))
  else
    Except.ok q

/-- Sort key of line 59: `x` alone; the stable sort keeps candidates
with equal `x` in their incoming order. -/
def leX (a b : Contour) : Prop := a.x ≤ b.x

instance : DecidableRel leX := fun a b =>
  decidable_of_iff (a.x ≤ b.x) Iff.rfl

instance : IsTotal Contour leX :=
  ⟨fun a b => by unfold leX; omega⟩

instance : IsTrans Contour leX :=
  ⟨fun a b c hab hbc => by unfold leX at hab hbc ⊢; omega⟩

/-- The per-question scan of lines 61–68: running maximum of the
foreground-pixel counts together with the index of the first candidate
attaining it (`total > bubbled[0]` is strict, so ties keep the earlier
candidate).  `j` is the loop counter, `b` the running `bubbled`. -/
def bubbledGo : Nat → Option (Nat × Nat) → List Contour → Option (Nat × Nat)
  | _, b, [] => b
  | j, none, c :: rest => bubbledGo (j + 1) (some (c.px, j)) rest
  | j, some (t, jb), c :: rest =>
    bubbledGo (j + 1) (if t < c.px then some (c.px, j) else some (t, jb)) rest

/-- A Python `dict` keyed by question number, modelled as the journal
of its assignments; lookup returns the value of the latest assignment
(`d[k] = v` overwrites earlier entries). -/
def dictGet (d : List (Nat × Char)) (q : Nat) : Option Char :=
  List.lookup q d.reverse

/-- Line 59: `row_cnts = sorted(question_cnts[start:end], key=x)` for
question index `i`, i.e. the `i`-th consecutive group of four,
re-sorted by `x`. -/
def sortedGroup (cnts : List Contour) (i : Nat) : List Contour :=
  ((cnts.drop (4 * i)).take 4).insertionSort leX

/-- Loop body of `extract_student_answers` (lines 55–71): scan the
re-sorted group and record `chr(ord('A') + j)` for question `i + 1` if
the winning count exceeds 150.  (`if bubbled and bubbled[0] > 150` is
tuple truthiness: `bubbled` is a non-`None` tuple for any nonempty
group.) -/
def extractStep (cnts : List Contour) (d : List (Nat × Char)) (i : Nat) :
    List (Nat × Char) :=
  match bubbledGo 0 none (sortedGroup cnts i) with
  | none => d
  | some (t, j) =>
    if 150 < t then d ++ [(i + 1, Char.ofNat ('A'.toNat + j))] else d

/-- `extract_student_answers` (lines 52–73): loop over the
`len(question_cnts) // 4` consecutive groups of four candidates. -/
def extract_student_answers (cnts : List Contour) : List (Nat × Char) :=
  (List.range (cnts.length / 4)).foldl (extractStep cnts) []

/-- One line of `results_data` (line 111):
`[q_num, student_answer, correct_answer, status]`. -/
structure Row where
  q : Nat
  student : String
  correct : String
  status : String
deriving DecidableEq, Repr

/-- Loop body of the Scorer (lines 100–111): look up the correct
answer (default `"N/A"`), the student answer (default `"Unanswered"`),
derive the status, append the row, and bump the score on `Correct`. -/
def scoreStep (key resp : List (Nat × Char)) (acc : List Row × Nat) (q : Nat) :
    List Row × Nat :=
  let correct :=
    match dictGet key q with
    | some c => String.mk [c]
    | none => "N/A"
  let student :=
    match dictGet resp q with
    | some c => String.mk [c]
    | none => "Unanswered"
  if student ≠ "Unanswered" then
    if student = correct then
      (acc.1 ++ [⟨q, student, correct, "Correct"⟩], acc.2 + 1)
    else
      (acc.1 ++ [⟨q, student, correct, "Incorrect"⟩], acc.2)
  else
    (acc.1 ++ [⟨q, student, correct, "Unanswered"⟩], acc.2)

/-- The Scorer (lines 98–111): `for q_num in range(1, 101)` produces
one row per question 1..100 and the final score. -/
def score_rows (key resp : List (Nat × Char)) : List Row × Nat :=
  (List.range' 1 100).foldl (scoreStep key resp) ([], 0)

/-- `\s` of Python's `re`, restricted to ASCII input. -/
def isWsC (c : Char) : Bool :=
  c = ' ' || c = '\t' || c = '\n' || c = '\r' || c = '\x0b' || c = '\x0c'

/-- `\d` of Python's `re`, restricted to ASCII input. -/
def isDigitC (c : Char) : Bool := '0' ≤ c && c ≤ '9'

/-- `[a-d]` under `re.IGNORECASE`. -/
def isLetterAD (c : Char) : Bool :=
  ('a' ≤ c && c ≤ 'd') || ('A' ≤ c && c ≤ 'D')

/-- Python's `int` on the digit string captured by `(\d+)`. -/
def natOfDigits (ds : List Char) : Nat :=
  ds.foldl (fun n c => 10 * n + (c.toNat - '0'.toNat)) 0

/-- `\s*[a-d]`: skip the maximal whitespace run, then require a
letter.  Backtracking cannot yield anything else: a shorter `\s*`
leaves a whitespace character for `[a-d]`, which fails. -/
def wsLetter (cs : List Char) : Option Char :=
  match cs.dropWhile isWsC with
  | [] => none
  | c :: _ => if isLetterAD c then some c else none

/-- The non-whitespace alternatives of `[-.\s]`. -/
def isPunctC (c : Char) : Bool := c = '-' || c = '.'

/-- `\s*[-.\s]\s*[a-d]` by `re` backtracking: after the maximal
whitespace run, either the next character is `-` or `.` and
`\s*[a-d]` must follow it, or the run was nonempty (its last character
then serves as the `[-.\s]` separator) and the next character is the
letter itself. -/
def sepLetter (cs : List Char) : Option Char :=
  match cs.dropWhile isWsC with
  | [] => none
  | c :: rest =>
    if isPunctC c then wsLetter rest
    else if decide (0 < (cs.takeWhile isWsC).length) && isLetterAD c then some c
    else none

/-- `re.search(r'(\d+)\s*[-.\s]\s*([a-d])', s, re.IGNORECASE)`:
scan left to right for the first start of a match.  A match starting at
a digit takes the maximal digit run there (giving digits back cannot
help: `\s*[-.\s]\s*` cannot consume a digit) and then the
separator-and-letter part.  Returns `(int(group(1)), group(2))`. -/
def reSearch : List Char → Option (Nat × Char)
  | [] => none
  | c :: cs =>
    if isDigitC c then
      match sepLetter ((c :: cs).dropWhile isDigitC) with
      | some l => some (natOfDigits ((c :: cs).takeWhile isDigitC), l)
      | none => reSearch cs
    else
      reSearch cs

/-- `parse_answer_key` (lines 9–23) on the flattened non-null cells of
a readable key file (the `pandas` I/O is abstracted away): each
matching cell assigns `answers[q_num] = letter.upper()`, later cells
overwriting earlier ones. -/
def parse_answer_key (cells : List String) : List (Nat × Char) :=
  cells.foldl
    (fun d cell =>
      match reSearch cell.data with
      | some (q, l) => d ++ [(q, l.toUpper)]
      | none => d)
    []

/-- A sheet, abstracted to its file name and the contours detected on
its thresholded image. -/
structure Sheet where
  name : String
  contours : List Contour
deriving DecidableEq, Repr

/-- Per-sheet outcome in the batch report (lines 92–130): the
insufficient-candidates warning, a caught per-sheet exception, or a
score report. -/
inductive SheetOutcome where
  | warning (found : Nat)
  | error (msg : String)
  | report (rows : List Row) (score : Nat)
deriving DecidableEq, Repr

/-- The body of the per-sheet `try` block (lines 86–127), with the
`except` handler of lines 129–130 turning the modelled
`ZeroDivisionError` into an error outcome for that sheet only. -/
def processSheet (key : List (Nat × Char)) (s : Sheet) : SheetOutcome :=
  match find_and_sort_bubbles s.contours with
  | Except.error e => SheetOutcome.error e
  | Except.ok bubbles =>
    if bubbles.length < 100 then SheetOutcome.warning bubbles.length
    else
      let res := score_rows key (extract_student_answers bubbles)
      SheetOutcome.report res.1 res.2

/-- `score_omr_sheets` (lines 75–132) in the readable-key case: parse
the key once, then process every uploaded sheet in order, each sheet
yielding exactly one outcome in the report. -/
def score_omr_sheets (sheets : List Sheet) (cells : List String) :
    List (String × SheetOutcome) :=
  let key := parse_answer_key cells
  sheets.map (fun s => (s.name, processSheet key s))

/-- Modelled from the claim's words: a cell that "consists of a
leading integer `q` followed by a space, hyphen, or period separator
and a trailing single letter in A–D", carrying the entry `q ↦ L`. -/
def CellShape (s : String) (q : Nat) (L : Char) : Prop :=
  ∃ ds c l, s.data = ds ++ [c, l] ∧ ds ≠ [] ∧
    (∀ d ∈ ds, isDigitC d = true) ∧ (c = ' ' ∨ c = '-' ∨ c = '.') ∧
    isLetterAD l = true ∧ q = natOfDigits ds ∧ L = l.toUpper

/-- Declarative reading of a hit for the search pattern
`(\d+)\s*[-.\s]\s*([a-d])` anywhere in a character sequence. -/
def KeyMatch (cs : List Char) : Prop :=
  ∃ pre ds w1 c w2 l post,
    cs = pre ++ (ds ++ (w1 ++ (c :: (w2 ++ (l :: post))))) ∧ ds ≠ [] ∧
    (∀ d ∈ ds, isDigitC d = true) ∧ (∀ u ∈ w1, isWsC u = true) ∧
    (isWsC c = true ∨ c = '-' ∨ c = '.') ∧ (∀ u ∈ w2, isWsC u = true) ∧
    isLetterAD l = true

/-- `KeyMatch` on a cell string. -/
def HasKeyMatch (s : String) : Prop :=
  KeyMatch s.data

/-- Proof-side characterization: the row that `scoreStep` appends for
question `q`. -/
def rowOf (key resp : List (Nat × Char)) (q : Nat) : Row :=
  let correct :=
    match dictGet key q with
    | some c => String.mk [c]
    | none => "N/A"
  let student :=
    match dictGet resp q with
    | some c => String.mk [c]
    | none => "Unanswered"
  if student ≠ "Unanswered" then
    if student = correct then ⟨q, student, correct, "Correct"⟩
    else ⟨q, student, correct, "Incorrect"⟩
  else ⟨q, student, correct, "Unanswered"⟩

/-- Proof-side characterization: the optional letter that
`extract_student_answers` records for question `i + 1`. -/
def entryAt (cnts : List Contour) (i : Nat) : Option Char :=
  match bubbledGo 0 none (sortedGroup cnts i) with
  | none => none
  | some (t, j) =>
    if 150 < t then some (Char.ofNat ('A'.toNat + j)) else none

/-! ### Dictionary-journal lemmas -/

theorem dictGet_nil (q : Nat) : dictGet [] q = none := rfl

theorem dictGet_append (d : List (Nat × Char)) (k : Nat) (v : Char) (q : Nat) :
    dictGet (d ++ [(k, v)]) q = if q = k then some v else dictGet d q := by
  by_cases h : q = k
  · subst h
    simp [dictGet, List.reverse_append, List.lookup]
  · have hb : (q == k) = false := beq_eq_false_iff_ne.mpr h
    simp [dictGet, List.reverse_append, List.lookup, hb, h]

/-! ### String disambiguation lemmas -/

theorem mk_single_ne_unanswered (c : Char) : String.mk [c] ≠ "Unanswered" := by
  intro h
  have h2 : ([c] : List Char) = "Unanswered".data := congrArg String.data h
  simp at h2

theorem mk_single_ne_na (c : Char) : String.mk [c] ≠ "N/A" := by
  intro h
  have h2 : ([c] : List Char) = "N/A".data := congrArg String.data h
  simp at h2

theorem mk_single_eq_iff (c k : Char) : String.mk [c] = String.mk [k] ↔ c = k := by
  constructor
  · intro h
    have h2 : ([c] : List Char) = [k] := congrArg String.data h
    simpa using h2
  · intro h
    rw [h]

/-! ### Scorer fold characterization -/

theorem scoreStep_eq (key resp : List (Nat × Char)) (acc : List Row × Nat) (q : Nat) :
    scoreStep key resp acc q =
      (acc.1 ++ [rowOf key resp q],
        acc.2 + if (rowOf key resp q).status = "Correct" then 1 else 0) := by
  unfold scoreStep rowOf
  cases hr : dictGet resp q <;> cases hk : dictGet key q <;>
    simp only [hr, hk] <;> split_ifs <;> simp_all

theorem score_foldl (key resp : List (Nat × Char)) :
    ∀ (qs : List Nat) (acc : List Row × Nat),
      qs.foldl (scoreStep key resp) acc =
        (acc.1 ++ qs.map (rowOf key resp),
          acc.2 + ((qs.map (rowOf key resp)).filter
            (fun r => r.status == "Correct")).length) := by
  intro qs
  induction qs with
  | nil => intro acc; simp
  | cons q qs ih =>
    intro acc
    rw [List.foldl_cons, ih, scoreStep_eq]
    simp only [List.map_cons, List.filter_cons]
    by_cases h : (rowOf key resp q).status = "Correct" <;>
      simp [h, List.append_assoc] <;> omega

theorem score_rows_eq (key resp : List (Nat × Char)) :
    score_rows key resp =
      ((List.range' 1 100).map (rowOf key resp),
        (((List.range' 1 100).map (rowOf key resp)).filter
          (fun r => r.status == "Correct")).length) := by
  unfold score_rows
  rw [score_foldl]
  simp

/-- The row for question `q`, written by cases on the two lookups. -/
theorem rowOf_cases (key resp : List (Nat × Char)) (q : Nat) :
    rowOf key resp q =
      ⟨q,
        match dictGet resp q with
        | some c => String.mk [c]
        | none => "Unanswered",
        match dictGet key q with
        | some c => String.mk [c]
        | none => "N/A",
        match dictGet resp q, dictGet key q with
        | none, _ => "Unanswered"
        | some c, some k => if c = k then "Correct" else "Incorrect"
        | some _, none => "Incorrect"⟩ := by
  unfold rowOf
  cases hr : dictGet resp q <;> cases hk : dictGet key q <;> simp only
  · rw [if_neg]
    simp
  · rw [if_neg]
    simp
  · rename_i c
    rw [if_pos (mk_single_ne_unanswered c), if_neg (mk_single_ne_na c)]
  · rename_i c k
    rw [if_pos (mk_single_ne_unanswered c)]
    by_cases h : c = k
    · rw [if_pos, if_pos h]
      rw [h]
    · rw [if_neg, if_neg h]
      exact fun hc => h ((mk_single_eq_iff c k).mp hc)

/-! ### C1: the Scorer's report -/

/-- C1: for every Answer Key and Student Response the Score Report has
exactly one row per question 1..100, in ascending order (row `i` is
question `i + 1`); the status is `Unanswered` exactly when the response
has no entry, `Correct` exactly when the student letter equals the
key letter, and `Incorrect` otherwise — also when the key has no entry,
in which case the reported correct answer is `"N/A"`; the score is the
number of `Correct` rows. -/
theorem scorer_report_spec (key resp : List (Nat × Char)) :
    (score_rows key resp).1.length = 100 ∧
    (∀ i, i < 100 →
      (score_rows key resp).1[i]? =
        some ⟨i + 1,
          match dictGet resp (i + 1) with
          | some c => String.mk [c]
          | none => "Unanswered",
          match dictGet key (i + 1) with
          | some c => String.mk [c]
          | none => "N/A",
          match dictGet resp (i + 1), dictGet key (i + 1) with
          | none, _ => "Unanswered"
          | some c, some k => if c = k then "Correct" else "Incorrect"
          | some _, none => "Incorrect"⟩) ∧
    (score_rows key resp).2 =
      ((score_rows key resp).1.filter (fun r => r.status == "Correct")).length := by
  rw [score_rows_eq]
  refine ⟨by simp, ?_, rfl⟩
  intro i hi
  rw [List.getElem?_map, List.getElem?_range' 1 1 hi]
  simp only [Option.map_some']
  rw [rowOf_cases]
  norm_num [Nat.add_comm]

/-- Witness for C1 at the spec's end-to-end example: with key
`{1: A, 2: B}` and response `{1: A, 2: C, 3: A}`, row index 3 is
question 4, unanswered with correct answer `"N/A"`. -/
theorem scorer_report_spec_witness :
    3 < 100 ∧
    (score_rows [(1, 'A'), (2, 'B')] [(1, 'A'), (2, 'C'), (3, 'A')]).1[3]? =
      some ⟨4, "Unanswered", "N/A", "Unanswered"⟩ := by
  refine ⟨by decide, ?_⟩
  have h :=
    (scorer_report_spec [(1, 'A'), (2, 'B')] [(1, 'A'), (2, 'C'), (3, 'A')]).2.1
      3 (by decide)
  rw [h]
  decide

/-! ### C8: determinism of the pipeline -/

/-- C8: the whole pipeline is a pure function of the sheets and the
key cells, so scoring the same inputs twice yields identical batch
reports (and hence identical per-sheet score reports and scores). -/
theorem pipeline_deterministic (sheets : List Sheet) (cells : List String)
    (r1 r2 : List (String × SheetOutcome))
    (h1 : r1 = score_omr_sheets sheets cells)
    (h2 : r2 = score_omr_sheets sheets cells) :
    r1 = r2 :=
  h1.trans h2.symm

/-- Witness for C8: two runs on a one-sheet batch, both evaluating to
the same concrete report. -/
theorem pipeline_deterministic_witness :
    [("a.png", SheetOutcome.warning 0)] =
      score_omr_sheets [⟨"a.png", []⟩] ["1-a"] ∧
    [("a.png", SheetOutcome.warning 0)] = [("a.png", SheetOutcome.warning 0)] :=
  ⟨by decide,
    pipeline_deterministic [⟨"a.png", []⟩] ["1-a"] _ _ (by decide) (by decide)⟩

/-! ### C2: the Mark Selector -/

/-- Invariant of the `bubbled` scan: starting from accumulator
`(t0, jb)` at loop counter `j0`, the scan returns the running maximum
and either keeps the accumulator (when nothing in `g` beats `t0`) or
returns the first strict improvement. -/
theorem bubbledGo_inv :
    ∀ (g : List Contour) (j0 t0 jb : Nat),
      ∃ t j, bubbledGo j0 (some (t0, jb)) g = some (t, j) ∧ t0 ≤ t ∧
        ((t = t0 ∧ j = jb ∧
            ∀ k (hk : k < g.length), (g.get ⟨k, hk⟩).px ≤ t0) ∨
          (∃ k, ∃ hk : k < g.length, j = j0 + k ∧ (g.get ⟨k, hk⟩).px = t ∧
            t0 < t ∧ (∀ m (hm : m < g.length), (g.get ⟨m, hm⟩).px ≤ t) ∧
            ∀ m (hm : m < g.length), m < k → (g.get ⟨m, hm⟩).px < t)) := by
  intro g
  induction g with
  | nil =>
    intro j0 t0 jb
    exact ⟨t0, jb, rfl, le_refl t0, Or.inl ⟨rfl, rfl, fun k hk => absurd hk (by simp)⟩⟩
  | cons c rest ih =>
    intro j0 t0 jb
    by_cases hc : t0 < c.px
    · obtain ⟨t, j, heq, hle, hcases⟩ := ih (j0 + 1) c.px j0
      refine ⟨t, j, ?_, le_of_lt (lt_of_lt_of_le hc hle), ?_⟩
      · rw [bubbledGo, if_pos hc]
        exact heq
      · rcases hcases with ⟨ht, hj, hall⟩ | ⟨k, hk, hj, hpx, hlt, hall, hfirst⟩
        · refine Or.inr ⟨0, by simp, by omega, ?_, by omega, ?_, ?_⟩
          · simpa using ht.symm
          · intro m hm
            cases m with
            | zero => simpa using ht.ge
            | succ m => exact le_of_le_of_eq (hall m (by simpa using hm)) ht.symm
          · intro m hm hm0
            omega
        · refine Or.inr ⟨k + 1, by simpa using hk, by omega, by simpa using hpx,
            lt_trans hc hlt, ?_, ?_⟩
          · intro m hm
            cases m with
            | zero => simpa using le_of_lt hlt
            | succ m => exact hall m (by simpa using hm)
          · intro m hm hmk
            cases m with
            | zero => simpa using hlt
            | succ m => exact hfirst m (by simpa using hm) (by omega)
    · obtain ⟨t, j, heq, hle, hcases⟩ := ih (j0 + 1) t0 jb
      refine ⟨t, j, ?_, hle, ?_⟩
      · rw [bubbledGo, if_neg hc]
        exact heq
      · rcases hcases with ⟨ht, hj, hall⟩ | ⟨k, hk, hj, hpx, hlt, hall, hfirst⟩
        · refine Or.inl ⟨ht, hj, ?_⟩
          intro m hm
          cases m with
          | zero => simpa using Nat.le_of_not_lt hc
          | succ m => exact hall m (by simpa using hm)
        · refine Or.inr ⟨k + 1, by simpa using hk, by omega, by simpa using hpx,
            hlt, ?_, ?_⟩
          · intro m hm
            cases m with
            | zero => exact le_trans (Nat.le_of_not_lt hc) hle
            | succ m => exact hall m (by simpa using hm)
          · intro m hm hmk
            cases m with
            | zero => exact lt_of_le_of_lt (Nat.le_of_not_lt hc) hlt
            | succ m => exact hfirst m (by simpa using hm) (by omega)

/-- The scan over a nonempty group returns the maximum count together
with the index of its first occurrence. -/
theorem bubbledGo_argmax (g : List Contour) (hg : g ≠ []) :
    ∃ t j, bubbledGo 0 none g = some (t, j) ∧ ∃ hj : j < g.length,
      (g.get ⟨j, hj⟩).px = t ∧
      (∀ k (hk : k < g.length), (g.get ⟨k, hk⟩).px ≤ t) ∧
      ∀ k (hk : k < g.length), k < j → (g.get ⟨k, hk⟩).px < t := by
  cases g with
  | nil => exact absurd rfl hg
  | cons c rest =>
    obtain ⟨t, j, heq, hle, hcases⟩ := bubbledGo_inv rest 1 c.px 0
    refine ⟨t, j, ?_, ?_⟩
    · rw [bubbledGo]
      exact heq
    · rcases hcases with ⟨ht, hj, hall⟩ | ⟨k, hk, hj, hpx, hlt, hall, hfirst⟩
      · refine ⟨by simpa [hj] using Nat.succ_pos rest.length, ?_, ?_, ?_⟩
        · simp [hj, ht]
        · intro m hm
          cases m with
          | zero => simpa using le_of_eq ht.symm
          | succ m =>
            exact le_of_le_of_eq (hall m (by simpa using hm)) ht.symm
        · intro m hm hmj
          omega
      · refine ⟨by simp only [List.length_cons]; omega, ?_, ?_, ?_⟩
        · have : j = k + 1 := by omega
          subst this
          simpa using hpx
        · intro m hm
          cases m with
          | zero => simpa using le_of_lt (lt_of_lt_of_le hlt (le_refl t))
          | succ m => exact hall m (by simpa using hm)
        · intro m hm hmj
          cases m with
          | zero => simpa using hlt
          | succ m => exact hfirst m (by simpa using hm) (by omega)

/-- `extractStep` through the `entryAt` characterization. -/
theorem extractStep_eq (cnts : List Contour) (d : List (Nat × Char)) (i : Nat) :
    extractStep cnts d i =
      match entryAt cnts i with
      | some ch => d ++ [(i + 1, ch)]
      | none => d := by
  unfold extractStep entryAt
  cases hb : bubbledGo 0 none (sortedGroup cnts i) with
  | none => simp
  | some tj =>
    obtain ⟨t, j⟩ := tj
    by_cases ht : 150 < t <;> simp [ht]

/-- Lookup in the dictionary built by the first `n` loop iterations. -/
theorem extract_foldl_lookup (cnts : List Contour) :
    ∀ (n q : Nat),
      dictGet ((List.range n).foldl (extractStep cnts) []) q =
        if 0 < q ∧ q ≤ n then entryAt cnts (q - 1) else none := by
  intro n
  induction n with
  | zero =>
    intro q
    rw [if_neg (by omega)]
    rfl
  | succ n ih =>
    intro q
    rw [List.range_succ, List.foldl_append, List.foldl_cons, List.foldl_nil,
      extractStep_eq]
    cases he : entryAt cnts n with
    | none =>
      rw [ih]
      by_cases hq : q = n + 1
      · rw [if_neg (by omega), if_pos (by omega)]
        rw [hq]
        simpa using he.symm
      · by_cases hq2 : 0 < q ∧ q ≤ n
        · rw [if_pos hq2, if_pos (by omega)]
        · rw [if_neg hq2, if_neg (by omega)]
    | some ch =>
      rw [dictGet_append, ih]
      by_cases hq : q = n + 1
      · rw [if_pos hq, if_pos (by omega)]
        rw [hq]
        simpa using he.symm
      · rw [if_neg hq]
        by_cases hq2 : 0 < q ∧ q ≤ n
        · rw [if_pos hq2, if_pos (by omega)]
        · rw [if_neg hq2, if_neg (by omega)]

/-- C2: the Mark Selector forms exactly `⌊n/4⌋` consecutive groups of
four (questions outside `1..n/4` get no entry — the trailing remainder
is ignored), re-sorts each group by horizontal position, and records
for question `i + 1` the letter `'A' + j` of the group member with the
maximum foreground-pixel count iff that maximum exceeds 150; members
before the winner have strictly smaller counts, so ties go to the
first candidate in the per-group sorted order. -/
theorem mark_selector_spec (cnts : List Contour) :
    (∀ q, q = 0 ∨ cnts.length / 4 < q →
      dictGet (extract_student_answers cnts) q = none) ∧
    ∀ i, i < cnts.length / 4 →
      ((cnts.drop (4 * i)).take 4).length = 4 ∧
      (sortedGroup cnts i).Perm ((cnts.drop (4 * i)).take 4) ∧
      List.Sorted leX (sortedGroup cnts i) ∧
      ∃ t j, ∃ hj : j < (sortedGroup cnts i).length,
        ((sortedGroup cnts i).get ⟨j, hj⟩).px = t ∧
        (∀ k (hk : k < (sortedGroup cnts i).length),
          ((sortedGroup cnts i).get ⟨k, hk⟩).px ≤ t) ∧
        (∀ k (hk : k < (sortedGroup cnts i).length),
          k < j → ((sortedGroup cnts i).get ⟨k, hk⟩).px < t) ∧
        dictGet (extract_student_answers cnts) (i + 1) =
          if 150 < t then some (Char.ofNat ('A'.toNat + j)) else none := by
  constructor
  · intro q hq
    unfold extract_student_answers
    rw [extract_foldl_lookup, if_neg (by omega)]
  · intro i hi
    have hlen : ((cnts.drop (4 * i)).take 4).length = 4 := by
      simp only [List.length_take, List.length_drop]
      omega
    have hne : sortedGroup cnts i ≠ [] := by
      unfold sortedGroup
      intro h
      have h2 := List.length_insertionSort leX ((cnts.drop (4 * i)).take 4)
      rw [h, hlen] at h2
      simp at h2
    obtain ⟨t, j, heq, hj, hpx, hall, hfirst⟩ := bubbledGo_argmax _ hne
    refine ⟨hlen, List.perm_insertionSort leX _, List.sorted_insertionSort leX _,
      t, j, hj, hpx, hall, hfirst, ?_⟩
    unfold extract_student_answers
    rw [extract_foldl_lookup, if_pos (by omega)]
    unfold entryAt
    simp only [Nat.add_sub_cancel]
    rw [heq]

/-- Concrete input for the C2 witness: one full group of four. -/
def c2cnts : List Contour :=
  [⟨0, 0, 20, 20, 200⟩, ⟨30, 0, 20, 20, 10⟩, ⟨60, 0, 20, 20, 10⟩,
    ⟨90, 0, 20, 20, 10⟩]

/-- Witness for C2 at a single full group. -/
theorem mark_selector_spec_witness :
    0 < c2cnts.length / 4 ∧
    (((c2cnts.drop (4 * 0)).take 4).length = 4 ∧
      (sortedGroup c2cnts 0).Perm ((c2cnts.drop (4 * 0)).take 4) ∧
      List.Sorted leX (sortedGroup c2cnts 0) ∧
      ∃ t j, ∃ hj : j < (sortedGroup c2cnts 0).length,
        ((sortedGroup c2cnts 0).get ⟨j, hj⟩).px = t ∧
        (∀ k (hk : k < (sortedGroup c2cnts 0).length),
          ((sortedGroup c2cnts 0).get ⟨k, hk⟩).px ≤ t) ∧
        (∀ k (hk : k < (sortedGroup c2cnts 0).length),
          k < j → ((sortedGroup c2cnts 0).get ⟨k, hk⟩).px < t) ∧
        dictGet (extract_student_answers c2cnts) (0 + 1) =
          if 150 < t then some (Char.ofNat ('A'.toNat + j)) else none) :=
  ⟨by decide, (mark_selector_spec c2cnts).2 0 (by decide)⟩

/-! ### C4, C5, C6: Region Detector and Grid Orderer -/

/-- Case analysis of a successful `find_and_sort_bubbles` run. -/
theorem find_ok_cases (cnts out : List Contour)
    (h : find_and_sort_bubbles cnts = Except.ok out) :
    (((cnts.filter bubbleFilter).insertionSort leXY).length ≤ 100 ∧
      out = (cnts.filter bubbleFilter).insertionSort leXY) ∨
    (100 < ((cnts.filter bubbleFilter).insertionSort leXY).length ∧
      listMax (((cnts.filter bubbleFilter).insertionSort leXY).map Contour.x) ≠
        listMin (((cnts.filter bubbleFilter).insertionSort leXY).map Contour.x) ∧
      out = ((cnts.filter bubbleFilter).insertionSort leXY).insertionSort
        (leCol
          (listMin (((cnts.filter bubbleFilter).insertionSort leXY).map Contour.x))
          (listMax (((cnts.filter bubbleFilter).insertionSort leXY).map Contour.x)))) := by
  unfold find_and_sort_bubbles at h
  by_cases h100 : 100 < ((cnts.filter bubbleFilter).insertionSort leXY).length
  · rw [if_pos h100] at h
    by_cases hspan :
        listMax (((cnts.filter bubbleFilter).insertionSort leXY).map Contour.x) =
          listMin (((cnts.filter bubbleFilter).insertionSort leXY).map Contour.x)
    · rw [if_pos hspan] at h
      exact absurd h (by simp)
    · rw [if_neg hspan] at h
      exact Or.inr ⟨h100, hspan, (Except.ok.injEq _ _).mp h.symm⟩
  · rw [if_neg h100] at h
    exact Or.inl ⟨Nat.le_of_not_lt h100, (Except.ok.injEq _ _).mp h.symm⟩

/-- Membership in a successful output is membership in the filtered
candidate set. -/
theorem find_ok_mem (cnts out : List Contour)
    (h : find_and_sort_bubbles cnts = Except.ok out) (c : Contour) :
    c ∈ out ↔ c ∈ cnts.filter bubbleFilter := by
  rcases find_ok_cases cnts out h with ⟨_, rfl⟩ | ⟨_, _, rfl⟩
  · exact List.mem_insertionSort leXY
  · rw [List.mem_insertionSort, List.mem_insertionSort]

/-- The executable shape filter agrees with the rational aspect-ratio
condition of the source (`ar = w / float(h)`, `0.8 ≤ ar ≤ 1.3`). -/
theorem bubbleFilter_iff_rat (c : Contour) (hh : 0 < c.h) :
    bubbleFilter c = true ↔
      20 ≤ c.w ∧ 20 ≤ c.h ∧ (0.8 : ℚ) ≤ (c.w : ℚ) / (c.h : ℚ) ∧
        (c.w : ℚ) / (c.h : ℚ) ≤ (1.3 : ℚ) := by
  unfold bubbleFilter
  simp only [Bool.and_eq_true, decide_eq_true_eq]
  have hq : (0 : ℚ) < (c.h : ℚ) := by exact_mod_cast hh
  constructor
  · rintro ⟨⟨⟨h1, h2⟩, h3⟩, h4⟩
    have h3q : (4 * (c.h : ℚ)) ≤ 5 * (c.w : ℚ) := by exact_mod_cast h3
    have h4q : (10 * (c.w : ℚ)) ≤ 13 * (c.h : ℚ) := by exact_mod_cast h4
    refine ⟨h1, h2, ?_, ?_⟩
    · rw [le_div_iff hq]
      norm_num
      linarith
    · rw [div_le_iff hq]
      norm_num
      linarith
  · rintro ⟨h1, h2, h3, h4⟩
    have h3q : (0.8 : ℚ) * (c.h : ℚ) ≤ (c.w : ℚ) := (le_div_iff hq).mp h3
    have h4q : (c.w : ℚ) ≤ (1.3 : ℚ) * (c.h : ℚ) := (div_le_iff hq).mp h4
    norm_num at h3q h4q
    refine ⟨⟨⟨h1, h2⟩, ?_⟩, ?_⟩
    · exact_mod_cast (by linarith : (4 * (c.h : ℚ)) ≤ 5 * (c.w : ℚ))
    · exact_mod_cast (by linarith : (10 * (c.w : ℚ)) ≤ 13 * (c.h : ℚ))

/-- C4: a region is kept iff its box is at least 20×20 with aspect
ratio `w/h` in `[0.8, 1.3]`; every other region is discarded. -/
theorem region_filter_spec (cnts out : List Contour)
    (h : find_and_sort_bubbles cnts = Except.ok out) (c : Contour)
    (hh : 0 < c.h) :
    c ∈ out ↔
      c ∈ cnts ∧ 20 ≤ c.w ∧ 20 ≤ c.h ∧
        (0.8 : ℚ) ≤ (c.w : ℚ) / (c.h : ℚ) ∧
        (c.w : ℚ) / (c.h : ℚ) ≤ (1.3 : ℚ) := by
  rw [find_ok_mem cnts out h c, List.mem_filter, bubbleFilter_iff_rat c hh]

/-- Witness for C4: a 20×20 box is kept, so it is a member of the
output exactly as the rational conditions say. -/
theorem region_filter_spec_witness :
    find_and_sort_bubbles [⟨0, 0, 20, 20, 0⟩, ⟨1, 1, 5, 5, 0⟩] =
      Except.ok [⟨0, 0, 20, 20, 0⟩] ∧
    0 < (⟨0, 0, 20, 20, 0⟩ : Contour).h ∧
    ((⟨0, 0, 20, 20, 0⟩ : Contour) ∈ [(⟨0, 0, 20, 20, 0⟩ : Contour)] ↔
      (⟨0, 0, 20, 20, 0⟩ : Contour) ∈
          [(⟨0, 0, 20, 20, 0⟩ : Contour), ⟨1, 1, 5, 5, 0⟩] ∧
        20 ≤ (⟨0, 0, 20, 20, 0⟩ : Contour).w ∧
        20 ≤ (⟨0, 0, 20, 20, 0⟩ : Contour).h ∧
        (0.8 : ℚ) ≤ ((⟨0, 0, 20, 20, 0⟩ : Contour).w : ℚ) /
            ((⟨0, 0, 20, 20, 0⟩ : Contour).h : ℚ) ∧
        ((⟨0, 0, 20, 20, 0⟩ : Contour).w : ℚ) /
            ((⟨0, 0, 20, 20, 0⟩ : Contour).h : ℚ) ≤ (1.3 : ℚ)) :=
  ⟨by decide, by decide,
    region_filter_spec [⟨0, 0, 20, 20, 0⟩, ⟨1, 1, 5, 5, 0⟩]
      [⟨0, 0, 20, 20, 0⟩] (by decide) ⟨0, 0, 20, 20, 0⟩ (by decide)⟩

/-- C5: a successful Grid Orderer output is a permutation of the
filtered candidates (so of equal length); with at most 100 candidates
it is exactly the single `(x, y)`-lexicographic sort, so the 5-band
re-sort activates only above 100. -/
theorem grid_orderer_spec (cnts out : List Contour)
    (h : find_and_sort_bubbles cnts = Except.ok out) :
    out.Perm (cnts.filter bubbleFilter) ∧
    out.length = (cnts.filter bubbleFilter).length ∧
    ((cnts.filter bubbleFilter).length ≤ 100 →
      out = (cnts.filter bubbleFilter).insertionSort leXY ∧
      List.Sorted leXY out) := by
  rcases find_ok_cases cnts out h with ⟨hle, rfl⟩ | ⟨hgt, _, rfl⟩
  · refine ⟨List.perm_insertionSort leXY _, List.length_insertionSort leXY _, ?_⟩
    intro _
    exact ⟨rfl, List.sorted_insertionSort leXY _⟩
  · refine ⟨(List.perm_insertionSort _ _).trans (List.perm_insertionSort leXY _),
      ?_, ?_⟩
    · rw [List.length_insertionSort, List.length_insertionSort]
    · intro hle
      rw [List.length_insertionSort] at hgt
      omega

/-- Witness for C5 on a two-candidate sheet (single-column mode). -/
theorem grid_orderer_spec_witness :
    find_and_sort_bubbles [⟨9, 0, 20, 20, 0⟩, ⟨3, 5, 25, 25, 0⟩] =
      Except.ok [⟨3, 5, 25, 25, 0⟩, ⟨9, 0, 20, 20, 0⟩] ∧
    ([⟨3, 5, 25, 25, 0⟩, ⟨9, 0, 20, 20, 0⟩] : List Contour).Perm
      (([⟨9, 0, 20, 20, 0⟩, ⟨3, 5, 25, 25, 0⟩] : List Contour).filter
        bubbleFilter) ∧
    ([⟨3, 5, 25, 25, 0⟩, ⟨9, 0, 20, 20, 0⟩] : List Contour).length =
      (([⟨9, 0, 20, 20, 0⟩, ⟨3, 5, 25, 25, 0⟩] : List Contour).filter
        bubbleFilter).length ∧
    ((([⟨9, 0, 20, 20, 0⟩, ⟨3, 5, 25, 25, 0⟩] : List Contour).filter
        bubbleFilter).length ≤ 100 →
      ([⟨3, 5, 25, 25, 0⟩, ⟨9, 0, 20, 20, 0⟩] : List Contour) =
        (([⟨9, 0, 20, 20, 0⟩, ⟨3, 5, 25, 25, 0⟩] : List Contour).filter
          bubbleFilter).insertionSort leXY ∧
      List.Sorted leXY [⟨3, 5, 25, 25, 0⟩, ⟨9, 0, 20, 20, 0⟩]) :=
  ⟨by decide,
    grid_orderer_spec [⟨9, 0, 20, 20, 0⟩, ⟨3, 5, 25, 25, 0⟩]
      [⟨3, 5, 25, 25, 0⟩, ⟨9, 0, 20, 20, 0⟩] (by decide)⟩

/-- C6: in multi-column mode (horizontal span nonzero), the band of a
candidate is the pure function `min(4, ⌊(x − min_x)/((max_x − min_x)/5)⌋)`
of its `x` and the extremes; it is monotone in `x`, always lies in
`{0,…,4}` (it is a natural number ≤ 4), the candidate at `max_x` is
clamped to band 4, and the output is the stable sort of the
`(x, y)`-ordered candidates by `(band, y)`. -/
theorem multicolumn_band_spec (mn mx : Nat) (hlt : mn < mx) :
    (∀ x, mn ≤ x →
      (get_col mn mx x : ℤ) =
        min 4 ⌊((x : ℚ) - (mn : ℚ)) / (((mx : ℚ) - (mn : ℚ)) / 5)⌋) ∧
    (∀ x1 x2, x1 ≤ x2 → get_col mn mx x1 ≤ get_col mn mx x2) ∧
    (∀ x, get_col mn mx x ≤ 4) ∧
    get_col mn mx mx = 4 ∧
    (∀ cnts : List Contour,
      100 < ((cnts.filter bubbleFilter).insertionSort leXY).length →
      listMin (((cnts.filter bubbleFilter).insertionSort leXY).map Contour.x) =
        mn →
      listMax (((cnts.filter bubbleFilter).insertionSort leXY).map Contour.x) =
        mx →
      find_and_sort_bubbles cnts =
        Except.ok (((cnts.filter bubbleFilter).insertionSort leXY).insertionSort
          (leCol mn mx)) ∧
      List.Sorted (leCol mn mx)
        (((cnts.filter bubbleFilter).insertionSort leXY).insertionSort
          (leCol mn mx))) := by
  refine ⟨?_, ?_, ?_, ?_, ?_⟩
  · intro x hx
    have h1 : ((x : ℚ) - (mn : ℚ)) = ((x - mn : ℕ) : ℚ) := by
      rw [Nat.cast_sub hx]
    have h2 : ((mx : ℚ) - (mn : ℚ)) = ((mx - mn : ℕ) : ℚ) := by
      rw [Nat.cast_sub (le_of_lt hlt)]
    rw [h1, h2, div_div_eq_mul_div]
    rw [show ((x - mn : ℕ) : ℚ) * 5 = ((5 * (x - mn) : ℕ) : ℚ) by
      push_cast
      ring]
    rw [Rat.floor_natCast_div_natCast]
    rw [show ((5 * (x - mn) : ℕ) : ℤ) / ((mx - mn : ℕ) : ℤ) =
        ((5 * (x - mn) / (mx - mn) : ℕ) : ℤ) from (Int.ofNat_div _ _).symm]
    unfold get_col
    rw [Nat.cast_min]
    norm_num
  · intro x1 x2 hle
    unfold get_col
    exact min_le_min (le_refl 4)
      (Nat.div_le_div_right (Nat.mul_le_mul_left 5 (Nat.sub_le_sub_right hle mn)))
  · intro x
    exact Nat.min_le_left 4 _
  · unfold get_col
    rw [Nat.mul_div_cancel 5 (by omega)]
    decide
  · intro cnts h100 hmn hmx
    constructor
    · simp only [find_and_sort_bubbles]
      rw [if_pos h100, hmn, hmx, if_neg (by omega)]
    · exact List.sorted_insertionSort (leCol mn mx) _

/-- Witness for C6 with extremes 0 and 10. -/
theorem multicolumn_band_spec_witness :
    0 < 10 ∧
    ((∀ x, 0 ≤ x →
      (get_col 0 10 x : ℤ) =
        min 4 ⌊((x : ℚ) - (0 : ℚ)) / (((10 : ℚ) - (0 : ℚ)) / 5)⌋) ∧
    (∀ x1 x2, x1 ≤ x2 → get_col 0 10 x1 ≤ get_col 0 10 x2) ∧
    (∀ x, get_col 0 10 x ≤ 4) ∧
    get_col 0 10 10 = 4 ∧
    (∀ cnts : List Contour,
      100 < ((cnts.filter bubbleFilter).insertionSort leXY).length →
      listMin (((cnts.filter bubbleFilter).insertionSort leXY).map Contour.x) =
        0 →
      listMax (((cnts.filter bubbleFilter).insertionSort leXY).map Contour.x) =
        10 →
      find_and_sort_bubbles cnts =
        Except.ok (((cnts.filter bubbleFilter).insertionSort leXY).insertionSort
          (leCol 0 10)) ∧
      List.Sorted (leCol 0 10)
        (((cnts.filter bubbleFilter).insertionSort leXY).insertionSort
          (leCol 0 10)))) :=
  ⟨by decide, multicolumn_band_spec 0 10 (by decide)⟩

/-! ### C7: insufficient candidates -/

/-- C7: a sheet whose successful detection yields fewer than 100
candidates gets a warning (and no score); one with exactly 100
proceeds to mark selection and scoring; and the batch maps over all
sheets, so processing always continues with the remaining sheets. -/
theorem insufficient_candidates_spec (cells : List String)
    (sheets1 sheets2 : List Sheet) (s : Sheet) (bs : List Contour)
    (h : find_and_sort_bubbles s.contours = Except.ok bs) :
    (bs.length < 100 →
      processSheet (parse_answer_key cells) s = SheetOutcome.warning bs.length) ∧
    (bs.length = 100 →
      processSheet (parse_answer_key cells) s =
        SheetOutcome.report
          (score_rows (parse_answer_key cells) (extract_student_answers bs)).1
          (score_rows (parse_answer_key cells) (extract_student_answers bs)).2) ∧
    score_omr_sheets (sheets1 ++ s :: sheets2) cells =
      score_omr_sheets sheets1 cells ++
        (s.name, processSheet (parse_answer_key cells) s) ::
          score_omr_sheets sheets2 cells := by
  refine ⟨?_, ?_, ?_⟩
  · intro hlt
    simp [processSheet, h, hlt]
  · intro heq
    simp [processSheet, h, heq]
  · simp [score_omr_sheets]

/-- Concrete input for the C7 witness: 99 accepted candidates, in
ascending `x` order. -/
def c7cnts : List Contour :=
  (List.range 99).map (fun i => ⟨10 * i, 5, 20, 20, 0⟩)

/-- Witness for C7 on a sheet with exactly 99 accepted candidates. -/
theorem insufficient_candidates_spec_witness :
    find_and_sort_bubbles (Sheet.mk "sheet99.png" c7cnts).contours =
      Except.ok c7cnts ∧
    ((c7cnts.length < 100 →
      processSheet (parse_answer_key []) (Sheet.mk "sheet99.png" c7cnts) =
        SheetOutcome.warning c7cnts.length) ∧
    (c7cnts.length = 100 →
      processSheet (parse_answer_key []) (Sheet.mk "sheet99.png" c7cnts) =
        SheetOutcome.report
          (score_rows (parse_answer_key []) (extract_student_answers c7cnts)).1
          (score_rows (parse_answer_key []) (extract_student_answers c7cnts)).2) ∧
    score_omr_sheets ([] ++ (Sheet.mk "sheet99.png" c7cnts) :: []) [] =
      score_omr_sheets [] [] ++
        ((Sheet.mk "sheet99.png" c7cnts).name,
          processSheet (parse_answer_key []) (Sheet.mk "sheet99.png" c7cnts)) ::
          score_omr_sheets [] []) :=
  ⟨by decide,
    insufficient_candidates_spec [] [] [] (Sheet.mk "sheet99.png" c7cnts) c7cnts
      (by decide)⟩

/-! ### C9: zero horizontal span in multi-column mode -/

theorem foldl_min_const :
    ∀ (xs : List Nat) (a : Nat), (∀ u ∈ xs, u = a) →
      xs.foldl Nat.min a = a := by
  intro xs
  induction xs with
  | nil => intro a _; rfl
  | cons x xs ih =>
    intro a h
    rw [List.foldl_cons, h x (by simp),
      show Nat.min a a = a from min_self a]
    exact ih a (fun u hu => h u (by simp [hu]))

theorem foldl_max_const :
    ∀ (xs : List Nat) (a : Nat), (∀ u ∈ xs, u = a) →
      xs.foldl Nat.max a = a := by
  intro xs
  induction xs with
  | nil => intro a _; rfl
  | cons x xs ih =>
    intro a h
    rw [List.foldl_cons, h x (by simp),
      show Nat.max a a = a from max_self a]
    exact ih a (fun u hu => h u (by simp [hu]))

theorem listMinMax_const (xs : List Nat) (a : Nat) (hne : xs ≠ [])
    (h : ∀ u ∈ xs, u = a) : listMin xs = a ∧ listMax xs = a := by
  cases xs with
  | nil => exact absurd rfl hne
  | cons x xs =>
    have hx : x = a := h x (by simp)
    subst hx
    exact ⟨foldl_min_const xs x (fun u hu => h u (by simp [hu])),
      foldl_max_const xs x (fun u hu => h u (by simp [hu]))⟩

/-- C9: with more than 100 accepted candidates all sharing one `x`
coordinate, the band-width computation divides by zero; the per-sheet
handler turns the exception into an error outcome for that sheet and
the batch continues with the remaining sheets. -/
theorem zero_span_error_spec (cells : List String)
    (sheets1 sheets2 : List Sheet) (s : Sheet) (v : Nat)
    (hlen : 100 < (s.contours.filter bubbleFilter).length)
    (hx : ∀ c ∈ s.contours.filter bubbleFilter, c.x = v) :
    find_and_sort_bubbles s.contours =
      Except.error "ZeroDivisionError: float division by zero" ∧
    processSheet (parse_answer_key cells) s =
      SheetOutcome.error "ZeroDivisionError: float division by zero" ∧
    score_omr_sheets (sheets1 ++ s :: sheets2) cells =
      score_omr_sheets sheets1 cells ++
        (s.name,
          SheetOutcome.error "ZeroDivisionError: float division by zero") ::
          score_omr_sheets sheets2 cells := by
  have hq : ∀ u ∈ ((s.contours.filter bubbleFilter).insertionSort leXY).map
      Contour.x, u = v := by
    intro u hu
    rw [List.mem_map] at hu
    obtain ⟨c, hc, rfl⟩ := hu
    exact hx c ((List.mem_insertionSort leXY).mp hc)
  have hne : ((s.contours.filter bubbleFilter).insertionSort leXY).map
      Contour.x ≠ [] := by
    apply List.ne_nil_of_length_pos
    rw [List.length_map, List.length_insertionSort]
    omega
  obtain ⟨hmn, hmx⟩ := listMinMax_const _ v hne hq
  have hfind : find_and_sort_bubbles s.contours =
      Except.error "ZeroDivisionError: float division by zero" := by
    simp only [find_and_sort_bubbles]
    rw [if_pos (by rw [List.length_insertionSort]; exact hlen), hmn, hmx,
      if_pos rfl]
  have hproc : processSheet (parse_answer_key cells) s =
      SheetOutcome.error "ZeroDivisionError: float division by zero" := by
    unfold processSheet
    rw [hfind]
  refine ⟨hfind, hproc, ?_⟩
  simp [score_omr_sheets, hproc]

/-- Concrete input for the C9 witness: 101 accepted candidates, all at
`x = 50`. -/
def c9cnts : List Contour :=
  (List.range 101).map (fun i => ⟨50, i, 20, 20, 0⟩)

/-- Witness for C9. -/
theorem zero_span_error_spec_witness :
    100 < ((Sheet.mk "same_x.png" c9cnts).contours.filter bubbleFilter).length ∧
    (∀ c ∈ (Sheet.mk "same_x.png" c9cnts).contours.filter bubbleFilter,
      c.x = 50) ∧
    (find_and_sort_bubbles (Sheet.mk "same_x.png" c9cnts).contours =
      Except.error "ZeroDivisionError: float division by zero" ∧
    processSheet (parse_answer_key []) (Sheet.mk "same_x.png" c9cnts) =
      SheetOutcome.error "ZeroDivisionError: float division by zero" ∧
    score_omr_sheets ([] ++ (Sheet.mk "same_x.png" c9cnts) :: []) [] =
      score_omr_sheets [] [] ++
        ((Sheet.mk "same_x.png" c9cnts).name,
          SheetOutcome.error "ZeroDivisionError: float division by zero") ::
          score_omr_sheets [] []) :=
  ⟨by decide, by decide,
    zero_span_error_spec [] [] [] (Sheet.mk "same_x.png" c9cnts) 50
      (by decide) (by decide)⟩

/-! ### C10: scoring against an empty key -/

theorem parse_none :
    ∀ (cells : List String), (∀ s ∈ cells, reSearch s.data = none) →
      parse_answer_key cells = [] := by
  intro cells
  induction cells with
  | nil => intro _; rfl
  | cons c cs ih =>
    intro h
    simp only [parse_answer_key, List.foldl_cons, h c (List.mem_cons_self c cs)]
    exact ih (fun s hs => h s (by simp [hs]))

/-- Rows scored against an empty key: correct answer `"N/A"`, never
`Correct`, and `Incorrect` exactly for marked answers. -/
theorem rowOf_nil_key (resp : List (Nat × Char)) (q : Nat) :
    (rowOf [] resp q).correct = "N/A" ∧
    (rowOf [] resp q).status ≠ "Correct" ∧
    ((rowOf [] resp q).student ≠ "Unanswered" →
      (rowOf [] resp q).status = "Incorrect") := by
  rw [rowOf_cases]
  simp only [dictGet_nil]
  cases hr : dictGet resp q with
  | none => simp
  | some c => simp [mk_single_ne_unanswered c]

/-- C10: if no cell matches the pattern the Answer Key Reader returns
an empty mapping (not an error); the batch proceeds and every sheet is
scored against the empty key, so each question's correct answer is
`"N/A"`, every marked answer is `Incorrect`, and each score is 0. -/
theorem empty_key_spec (cells : List String)
    (h : ∀ s ∈ cells, reSearch s.data = none) :
    parse_answer_key cells = [] ∧
    (∀ resp : List (Nat × Char),
      (score_rows [] resp).2 = 0 ∧
      ∀ r ∈ (score_rows [] resp).1,
        r.correct = "N/A" ∧ r.status ≠ "Correct" ∧
          (r.student ≠ "Unanswered" → r.status = "Incorrect")) ∧
    ∀ sheets : List Sheet,
      score_omr_sheets sheets cells =
        sheets.map (fun s => (s.name, processSheet [] s)) := by
  have hparse := parse_none cells h
  refine ⟨hparse, ?_, ?_⟩
  · intro resp
    rw [score_rows_eq]
    constructor
    · rw [List.filter_eq_nil_iff.mpr]
      · rfl
      · intro r hr
        rw [List.mem_map] at hr
        obtain ⟨q, _, rfl⟩ := hr
        have h2 := (rowOf_nil_key resp q).2.1
        simp [h2]
    · intro r hr
      rw [List.mem_map] at hr
      obtain ⟨q, _, rfl⟩ := hr
      exact rowOf_nil_key resp q
  · intro sheets
    simp only [score_omr_sheets, hparse]

/-- Witness for C10 with the single unmatchable cell
`"notanentry"`. -/
theorem empty_key_spec_witness :
    (∀ s ∈ ["notanentry"], reSearch s.data = none) ∧
    (parse_answer_key ["notanentry"] = [] ∧
    (∀ resp : List (Nat × Char),
      (score_rows [] resp).2 = 0 ∧
      ∀ r ∈ (score_rows [] resp).1,
        r.correct = "N/A" ∧ r.status ≠ "Correct" ∧
          (r.student ≠ "Unanswered" → r.status = "Incorrect")) ∧
    ∀ sheets : List Sheet,
      score_omr_sheets sheets ["notanentry"] =
        sheets.map (fun s => (s.name, processSheet [] s))) :=
  ⟨by decide, empty_key_spec ["notanentry"] (by decide)⟩

/-! ### C3: character-class facts and while-helpers -/

theorem ws_chars (c : Char) (h : isWsC c = true) :
    c = ' ' ∨ c = '\t' ∨ c = '\n' ∨ c = '\r' ∨ c = '\x0b' ∨ c = '\x0c' := by
  simp [isWsC] at h
  tauto

theorem ws_not_digit (c : Char) (h : isWsC c = true) : isDigitC c = false := by
  rcases ws_chars c h with rfl | rfl | rfl | rfl | rfl | rfl <;> decide

theorem ws_not_letter (c : Char) (h : isWsC c = true) : isLetterAD c = false := by
  rcases ws_chars c h with rfl | rfl | rfl | rfl | rfl | rfl <;> decide

theorem letter_not_ws (c : Char) (h : isLetterAD c = true) : isWsC c = false := by
  cases hw : isWsC c
  · rfl
  · rw [ws_not_letter c hw] at h
    exact absurd h (by simp)

theorem letter_not_punct (l : Char) (h : isLetterAD l = true) :
    isPunctC l = false := by
  by_cases h1 : l = '-'
  · subst h1
    exact absurd h (by decide)
  · by_cases h2 : l = '.'
    · subst h2
      exact absurd h (by decide)
    · simp [isPunctC, h1, h2]

theorem punct_not_ws (c : Char) (h : c = '-' ∨ c = '.') : isWsC c = false := by
  rcases h with rfl | rfl <;> decide

theorem punct_not_digit (c : Char) (h : c = '-' ∨ c = '.') :
    isDigitC c = false := by
  rcases h with rfl | rfl <;> decide

theorem sep_not_digit (c : Char) (h : isWsC c = true ∨ c = '-' ∨ c = '.') :
    isDigitC c = false := by
  rcases h with h | h
  · exact ws_not_digit c h
  · exact punct_not_digit c h

theorem isPunctC_cases (c : Char) (h : isPunctC c = true) :
    c = '-' ∨ c = '.' := by
  simpa [isPunctC] using h

theorem isPunctC_of_cases (c : Char) (h : c = '-' ∨ c = '.') :
    isPunctC c = true := by
  rcases h with rfl | rfl <;> decide

theorem takeWhile_app_cons (p : Char → Bool) (w : List Char) (c : Char)
    (t : List Char) (hw : ∀ u ∈ w, p u = true) (hc : p c = false) :
    (w ++ (c :: t)).takeWhile p = w := by
  induction w with
  | nil => simp [List.takeWhile_cons, hc]
  | cons a w ih =>
    have ha : p a = true := hw a (by simp)
    simp [List.takeWhile_cons, ha, ih (fun u hu => hw u (by simp [hu]))]

theorem dropWhile_app_cons (p : Char → Bool) (w : List Char) (c : Char)
    (t : List Char) (hw : ∀ u ∈ w, p u = true) (hc : p c = false) :
    (w ++ (c :: t)).dropWhile p = c :: t := by
  induction w with
  | nil => simp [List.dropWhile_cons, hc]
  | cons a w ih =>
    have ha : p a = true := hw a (by simp)
    simp [List.dropWhile_cons, ha, ih (fun u hu => hw u (by simp [hu]))]

/-! ### C3: the separator-and-letter part of the pattern -/

theorem wsLetter_of_parts (w2 : List Char) (l : Char) (t : List Char)
    (h2 : ∀ u ∈ w2, isWsC u = true) (hl : isLetterAD l = true) :
    wsLetter (w2 ++ (l :: t)) = some l := by
  unfold wsLetter
  rw [dropWhile_app_cons isWsC w2 l t h2 (letter_not_ws l hl)]
  simp [hl]

theorem sepLetter_of_parts (w1 : List Char) (c : Char) (w2 : List Char)
    (l : Char) (t : List Char) (h1 : ∀ u ∈ w1, isWsC u = true)
    (hc : isWsC c = true ∨ c = '-' ∨ c = '.')
    (h2 : ∀ u ∈ w2, isWsC u = true) (hl : isLetterAD l = true) :
    sepLetter (w1 ++ (c :: (w2 ++ (l :: t)))) = some l := by
  rcases hc with hws | hpunct
  · have hall : ∀ u ∈ w1 ++ (c :: w2), isWsC u = true := by
      intro u hu
      rcases List.mem_append.mp hu with h | h
      · exact h1 u h
      · rcases List.mem_cons.mp h with rfl | h
        · exact hws
        · exact h2 u h
    have hre : w1 ++ (c :: (w2 ++ (l :: t))) = (w1 ++ (c :: w2)) ++ (l :: t) := by
      simp
    unfold sepLetter
    rw [hre, dropWhile_app_cons isWsC _ l t hall (letter_not_ws l hl)]
    rw [takeWhile_app_cons isWsC _ l t hall (letter_not_ws l hl)]
    dsimp only
    rw [letter_not_punct l hl]
    simp [hl]
  · unfold sepLetter
    rw [dropWhile_app_cons isWsC w1 c (w2 ++ (l :: t)) h1 (punct_not_ws c hpunct)]
    dsimp only
    rw [isPunctC_of_cases c hpunct]
    simp [wsLetter_of_parts w2 l t h2 hl]

theorem sepLetter_parts (cs : List Char) (l : Char) (h : sepLetter cs = some l) :
    ∃ w1 c w2 t, cs = w1 ++ (c :: (w2 ++ (l :: t))) ∧
      (∀ u ∈ w1, isWsC u = true) ∧ (isWsC c = true ∨ c = '-' ∨ c = '.') ∧
      (∀ u ∈ w2, isWsC u = true) ∧ isLetterAD l = true := by
  have hsplit := List.takeWhile_append_dropWhile (p := isWsC) (l := cs)
  unfold sepLetter at h
  cases hR : cs.dropWhile isWsC with
  | nil =>
    rw [hR] at h
    exact absurd h (by simp)
  | cons c0 rest =>
    rw [hR] at h
    dsimp only at h
    by_cases hp : isPunctC c0 = true
    · rw [if_pos hp] at h
      unfold wsLetter at h
      cases hR2 : rest.dropWhile isWsC with
      | nil =>
        rw [hR2] at h
        exact absurd h (by simp)
      | cons c1 rest2 =>
        rw [hR2] at h
        dsimp only at h
        by_cases hl : isLetterAD c1 = true
        · rw [if_pos hl] at h
          have hc1 : c1 = l := by
            injection h
          subst hc1
          refine ⟨cs.takeWhile isWsC, c0, rest.takeWhile isWsC, rest2, ?_, ?_,
            Or.inr (isPunctC_cases c0 hp), ?_, hl⟩
          · have h2 : rest.takeWhile isWsC ++ (c1 :: rest2) = rest := by
              have hrest :=
                List.takeWhile_append_dropWhile (p := isWsC) (l := rest)
              rw [hR2] at hrest
              exact hrest
            have h1 : cs.takeWhile isWsC ++ (c0 :: rest) = cs := by
              have hcs := hsplit
              rw [hR] at hcs
              exact hcs
            rw [h2]
            conv_lhs => rw [← h1]
          · intro u hu
            exact List.mem_takeWhile_imp hu
          · intro u hu
            exact List.mem_takeWhile_imp hu
        · rw [if_neg hl] at h
          exact absurd h (by simp)
    · rw [if_neg hp] at h
      by_cases hcond :
          (decide (0 < (cs.takeWhile isWsC).length) && isLetterAD c0) = true
      · rw [if_pos hcond] at h
        have hc0 : c0 = l := by
          injection h
        subst hc0
        rw [Bool.and_eq_true, decide_eq_true_eq] at hcond
        obtain ⟨hpos, hlet⟩ := hcond
        have hWne : cs.takeWhile isWsC ≠ [] := by
          intro h0
          rw [h0] at hpos
          simp at hpos
        rcases List.eq_nil_or_concat (cs.takeWhile isWsC) with h0 | ⟨W, cw, hW⟩
        · exact absurd h0 hWne
        · refine ⟨W, cw, [], rest, ?_, ?_, ?_, by simp, hlet⟩
          · rw [← hsplit, hR, hW]
            simp [List.concat_eq_append]
          · intro u hu
            have : u ∈ cs.takeWhile isWsC := by
              rw [hW, List.concat_eq_append]
              exact List.mem_append.mpr (Or.inl hu)
            exact List.mem_takeWhile_imp this
          · have : cw ∈ cs.takeWhile isWsC := by
              rw [hW, List.concat_eq_append]
              simp
            exact Or.inl (List.mem_takeWhile_imp this)
      · rw [if_neg hcond] at h
        exact absurd h (by simp)

/-! ### C3: the search over starting positions -/

theorem keyMatch_cons (c : Char) (cs : List Char) (h : KeyMatch cs) :
    KeyMatch (c :: cs) := by
  obtain ⟨pre, ds, w1, c2, w2, l, post, heq, h2, h3, h4, h5, h6, h7⟩ := h
  exact ⟨c :: pre, ds, w1, c2, w2, l, post, by rw [heq, List.cons_append],
    h2, h3, h4, h5, h6, h7⟩

theorem reSearch_some_match :
    ∀ (cs : List Char) (r : Nat × Char), reSearch cs = some r → KeyMatch cs := by
  intro cs
  induction cs with
  | nil =>
    intro r h
    exact absurd h (by simp [reSearch])
  | cons c cs ih =>
    intro r h
    unfold reSearch at h
    by_cases hd : isDigitC c = true
    · rw [if_pos hd] at h
      cases hs : sepLetter ((c :: cs).dropWhile isDigitC) with
      | some l =>
        obtain ⟨w1, c2, w2, t, hdec, hw1, hc2, hw2, hl⟩ := sepLetter_parts _ l hs
        refine ⟨[], (c :: cs).takeWhile isDigitC, w1, c2, w2, l, t, ?_, ?_, ?_,
          hw1, hc2, hw2, hl⟩
        · rw [List.nil_append, ← hdec, List.takeWhile_append_dropWhile]
        · simp [List.takeWhile_cons, hd]
        · intro d hdm
          exact List.mem_takeWhile_imp hdm
      | none =>
        rw [hs] at h
        dsimp only at h
        exact keyMatch_cons c cs (ih r h)
    · rw [if_neg hd] at h
      exact keyMatch_cons c cs (ih r h)

theorem match_reSearch_isSome :
    ∀ cs : List Char, KeyMatch cs → (reSearch cs).isSome = true := by
  intro cs
  induction cs with
  | nil =>
    rintro ⟨pre, ds, w1, c2, w2, l, post, heq, hds, _⟩
    have hlen := congrArg List.length heq
    simp [List.length_append] at hlen
    omega
  | cons c cs ih =>
    rintro ⟨pre, ds, w1, c2, w2, l, post, heq, hds, hdig, hw1, hc2, hw2, hl⟩
    cases pre with
    | cons p0 pre' =>
      have htail : KeyMatch cs := by
        rw [List.cons_append] at heq
        injection heq with h1 h2
        exact ⟨pre', ds, w1, c2, w2, l, post, h2, hds, hdig, hw1, hc2, hw2, hl⟩
      have hsome := ih htail
      unfold reSearch
      by_cases hd : isDigitC c = true
      · rw [if_pos hd]
        cases hs : sepLetter ((c :: cs).dropWhile isDigitC) with
        | some l2 => simp
        | none => simpa using hsome
      · rw [if_neg hd]
        exact hsome
    | nil =>
      cases ds with
      | nil => exact absurd rfl hds
      | cons d0 ds' =>
        rw [List.nil_append, List.cons_append] at heq
        injection heq with h1 h2
        subst h1
        have hd : isDigitC c = true := hdig c (by simp)
        have hfull : c :: cs =
            (c :: ds') ++ (w1 ++ (c2 :: (w2 ++ (l :: post)))) := by
          rw [List.cons_append, h2]
        have hXdrop : (c :: cs).dropWhile isDigitC =
            w1 ++ (c2 :: (w2 ++ (l :: post))) := by
          cases w1 with
          | nil =>
            rw [hfull, List.nil_append]
            exact dropWhile_app_cons isDigitC (c :: ds') c2 _
              (fun u hu => hdig u hu) (sep_not_digit c2 hc2)
          | cons a w1r =>
            have ha : isWsC a = true := hw1 a (by simp)
            rw [hfull, List.cons_append]
            exact dropWhile_app_cons isDigitC (c :: ds') a _
              (fun u hu => hdig u hu) (ws_not_digit a ha)
        unfold reSearch
        rw [if_pos hd, hXdrop,
          sepLetter_of_parts w1 c2 w2 l post
            (fun u hu => hw1 u (by simp [hu])) hc2 hw2 hl]
        simp

/-- A cell yields a key entry exactly when the pattern
`(\d+)\s*[-.\s]\s*([a-d])` matches somewhere inside it. -/
theorem reSearch_isSome_iff (cs : List Char) :
    (reSearch cs).isSome = true ↔ KeyMatch cs := by
  constructor
  · intro h
    cases hr : reSearch cs with
    | none =>
      rw [hr] at h
      exact absurd h (by simp)
    | some r => exact reSearch_some_match cs r hr
  · exact match_reSearch_isSome cs

/-- A cell of the claim's shape — leading integer, one separator,
trailing letter — parses to exactly its own entry. -/
theorem cellShape_reSearch (s : String) (q : Nat) (L : Char)
    (h : CellShape s q L) :
    ∃ l, reSearch s.data = some (q, l) ∧ l.toUpper = L := by
  obtain ⟨ds, c, l, heq, hds, hdig, hc, hl, hq, hL⟩ := h
  refine ⟨l, ?_, hL.symm⟩
  cases ds with
  | nil => exact absurd rfl hds
  | cons d0 ds' =>
    have hfull : s.data = d0 :: (ds' ++ [c, l]) := by
      rw [heq, List.cons_append]
    have hcnd : isDigitC c = false := by
      rcases hc with rfl | rfl | rfl <;> decide
    have hlw : isWsC c = true ∨ c = '-' ∨ c = '.' := by
      rcases hc with rfl | h2 | h2
      · exact Or.inl (by decide)
      · exact Or.inr (Or.inl h2)
      · exact Or.inr (Or.inr h2)
    have htW : (d0 :: (ds' ++ [c, l])).takeWhile isDigitC = d0 :: ds' := by
      have := takeWhile_app_cons isDigitC (d0 :: ds') c [l]
        (fun u hu => hdig u (by simpa using hu)) hcnd
      simpa using this
    have hdW : (d0 :: (ds' ++ [c, l])).dropWhile isDigitC = [c, l] := by
      have := dropWhile_app_cons isDigitC (d0 :: ds') c [l]
        (fun u hu => hdig u (by simpa using hu)) hcnd
      simpa using this
    have hsep : sepLetter [c, l] = some l := by
      have := sepLetter_of_parts [] c [] l [] (by simp) hlw (by simp) hl
      simpa using this
    rw [hfull]
    unfold reSearch
    rw [if_pos (hdig d0 (by simp)), hdW, hsep, htW, hq]

/-- Appending one more cell: its entry (if any) overwrites the
accumulated dictionary at its question number — last write wins. -/
theorem parse_append_cell (cells : List String) (s : String) (q : Nat) :
    dictGet (parse_answer_key (cells ++ [s])) q =
      match reSearch s.data with
      | some (q2, l) =>
        if q = q2 then some l.toUpper else dictGet (parse_answer_key cells) q
      | none => dictGet (parse_answer_key cells) q := by
  unfold parse_answer_key
  rw [List.foldl_append, List.foldl_cons, List.foldl_nil]
  cases hr : reSearch s.data with
  | none => simp only [hr]
  | some ql =>
    obtain ⟨q2, l⟩ := ql
    simp only [hr]
    rw [dictGet_append]

/-- Counterexample to C3 as stated: the cell `"x37-B"` does not consist
of a leading integer, separator, and trailing letter, yet the Answer
Key Reader produces the entry `37 ↦ B` from it (`re.search` is not
anchored). -/
theorem answer_key_claim_counterexample :
    dictGet (parse_answer_key ["x37-B"]) 37 = some 'B' ∧
    ¬ CellShape "x37-B" 37 'B' := by
  refine ⟨by decide, ?_⟩
  rintro ⟨ds, c, l, heq, hds, hdig, hc, hl, hq, hL⟩
  have hx : "x37-B".data = 'x' :: ['3', '7', '-', 'B'] := by decide
  rw [hx] at heq
  cases ds with
  | nil =>
    have hlen := congrArg List.length heq
    simp at hlen
  | cons d0 ds' =>
    rw [List.cons_append] at heq
    injection heq with h1 h2
    have hd : isDigitC d0 = true := hdig d0 (by simp)
    rw [← h1] at hd
    exact absurd hd (by decide)

/-- C3 (amended): a readable cell produces an entry exactly when the
pattern — a digit run, optional whitespace, one space/hyphen/period,
optional whitespace, a letter a–d (case-insensitive) — matches
somewhere inside it (not necessarily spanning the whole cell); a cell
that does consist of a leading integer, separator and trailing letter
yields exactly its own entry (uppercased); a later cell overwrites an
earlier cell's entry at the same question number; and the example
cells behave as the claim lists. -/
theorem answer_key_reader_spec :
    (∀ s : String, (reSearch s.data).isSome = true ↔ HasKeyMatch s) ∧
    (∀ (s : String) (q : Nat) (L : Char), CellShape s q L →
      ∃ l, reSearch s.data = some (q, l) ∧ l.toUpper = L) ∧
    (∀ (cells : List String) (s : String) (q : Nat),
      dictGet (parse_answer_key (cells ++ [s])) q =
        match reSearch s.data with
        | some (q2, l) =>
          if q = q2 then some l.toUpper
          else dictGet (parse_answer_key cells) q
        | none => dictGet (parse_answer_key cells) q) ∧
    dictGet (parse_answer_key ["37-B"]) 37 = some 'B' ∧
    dictGet (parse_answer_key ["37 b"]) 37 = some 'B' ∧
    dictGet (parse_answer_key ["37.B"]) 37 = some 'B' ∧
    parse_answer_key ["notanentry"] = [] ∧
    dictGet (parse_answer_key ["12-a", "12 B"]) 12 = some 'B' :=
  ⟨fun s => reSearch_isSome_iff s.data, cellShape_reSearch, parse_append_cell,
    by decide, by decide, by decide, by decide, by decide⟩

/-- Witness for the amended C3 at the cell `"37 b"`. -/
theorem answer_key_reader_spec_witness :
    CellShape "37 b" 37 'B' ∧
    ∃ l, reSearch ("37 b" : String).data = some (37, l) ∧ l.toUpper = 'B' :=
  ⟨⟨['3', '7'], ' ', 'b', by decide, by decide, by decide, Or.inl rfl,
      by decide, by decide, by decide⟩,
    answer_key_reader_spec.2.1 "37 b" 37 'B'
      ⟨['3', '7'], ' ', 'b', by decide, by decide, by decide, Or.inl rfl,
        by decide, by decide, by decide⟩⟩

end OMR
